import Mathlib

/-!
Verification of the pharmacy report pipeline (email_checker repository).

The definitions below are a shallow embedding of the Python sources:
- Scripts/improved_data_pipeline.py  (reconciliation, aggregation, derived metrics)
- Scripts/classify_and_organize_pdfs.py and Scripts/improved_classify_and_organize.py
  (report classification)
- Scripts/test_deduplication.py  (keep_latest_versions)
- Scripts/extract_turnover_summary.py  (regex based field extraction)

Monetary amounts and counts are modelled as rationals; Python None is modelled
with Option.  Dictionary lookups with a default, as in d.get(key, 0) on a row
whose columns may be NULL, are modelled by Option values.
-/

/-- `compare_and_keep_largest` from Scripts/improved_data_pipeline.py lines 106-117.
A missing (None) or zero existing value defers to the new value; otherwise the
strictly larger of the two wins and ties keep the existing value. -/
def compare_and_keep_largest (existing_value : Option ℚ) (new_value : ℚ) : ℚ :=
  match existing_value with
  | none => new_value
  | some e => if e = 0 then new_value else if new_value > e then new_value else e

/-- The metrics dictionary built by `calculate_derived_metrics` (lines 215-261) and
also the shape of the final metrics written by `update_database_record`.  The five
derived fields (percentages, averages, adjustments) are taken as a bundle in
`compare_with_database_and_update` lines 373-387; they are Option valued because
the underlying dictionary lookups can produce None (for example a null
avg_script_value from the dispensary extraction). -/
structure CalculatedMetrics where
  turnover : ℚ
  gp_value : ℚ
  cost_of_sales : ℚ
  purchases : ℚ
  disp_turnover : ℚ
  transactions_total : ℚ
  script_total : ℚ
  stock_opening : ℚ
  stock_closing : ℚ
  sales_cash : ℚ
  sales_account : ℚ
  sales_cod : ℚ
  type_r_sales : ℚ
  gp_percent : Option ℚ
  avg_basket_value : Option ℚ
  avg_basket_size : Option ℚ
  avg_script_value : Option ℚ
  adjustments : Option ℚ
deriving DecidableEq

/-- A persisted daily_summary row as returned by `get_existing_data` (lines 85-104):
every column is nullable.  The empty dictionary case (no row) corresponds to every
field being `some 0`, because existing_data.get(field, 0) then yields 0. -/
structure ExistingRecord where
  turnover : Option ℚ
  gp_value : Option ℚ
  cost_of_sales : Option ℚ
  purchases : Option ℚ
  disp_turnover : Option ℚ
  transactions_total : Option ℚ
  script_total : Option ℚ
  stock_opening : Option ℚ
  stock_closing : Option ℚ
  sales_cash : Option ℚ
  sales_account : Option ℚ
  sales_cod : Option ℚ
  type_r_sales : Option ℚ
  gp_percent : Option ℚ
  avg_basket_value : Option ℚ
  avg_basket_size : Option ℚ
  avg_script_value : Option ℚ
  adjustments : Option ℚ
deriving DecidableEq

/-- The per (pharmacy, date) body of `compare_with_database_and_update`
(Scripts/improved_data_pipeline.py lines 288-390): the thirteen raw metrics each go
through `compare_and_keep_largest`, and the five derived fields are copied as a
bundle from the candidate when the final turnover equals the candidate turnover,
otherwise from the existing record. -/
def reconcileRecord (existing : ExistingRecord) (calculated : CalculatedMetrics) :
    CalculatedMetrics :=
  let finalTurnover := compare_and_keep_largest existing.turnover calculated.turnover
  { turnover := finalTurnover
    gp_value := compare_and_keep_largest existing.gp_value calculated.gp_value
    cost_of_sales := compare_and_keep_largest existing.cost_of_sales calculated.cost_of_sales
    purchases := compare_and_keep_largest existing.purchases calculated.purchases
    disp_turnover := compare_and_keep_largest existing.disp_turnover calculated.disp_turnover
    transactions_total :=
      compare_and_keep_largest existing.transactions_total calculated.transactions_total
    script_total := compare_and_keep_largest existing.script_total calculated.script_total
    stock_opening := compare_and_keep_largest existing.stock_opening calculated.stock_opening
    stock_closing := compare_and_keep_largest existing.stock_closing calculated.stock_closing
    sales_cash := compare_and_keep_largest existing.sales_cash calculated.sales_cash
    sales_account := compare_and_keep_largest existing.sales_account calculated.sales_account
    sales_cod := compare_and_keep_largest existing.sales_cod calculated.sales_cod
    type_r_sales := compare_and_keep_largest existing.type_r_sales calculated.type_r_sales
    gp_percent :=
      if finalTurnover = calculated.turnover then calculated.gp_percent
      else existing.gp_percent
    avg_basket_value :=
      if finalTurnover = calculated.turnover then calculated.avg_basket_value
      else existing.avg_basket_value
    avg_basket_size :=
      if finalTurnover = calculated.turnover then calculated.avg_basket_size
      else existing.avg_basket_size
    avg_script_value :=
      if finalTurnover = calculated.turnover then calculated.avg_script_value
      else existing.avg_script_value
    adjustments :=
      if finalTurnover = calculated.turnover then calculated.adjustments
      else existing.adjustments }

/-- Rereading the row written by `update_database_record`: every stored raw metric
column now holds the computed value, and the derived columns hold the bundle that
was chosen (still nullable). -/
def asExisting (m : CalculatedMetrics) : ExistingRecord :=
  { turnover := some m.turnover
    gp_value := some m.gp_value
    cost_of_sales := some m.cost_of_sales
    purchases := some m.purchases
    disp_turnover := some m.disp_turnover
    transactions_total := some m.transactions_total
    script_total := some m.script_total
    stock_opening := some m.stock_opening
    stock_closing := some m.stock_closing
    sales_cash := some m.sales_cash
    sales_account := some m.sales_account
    sales_cod := some m.sales_cod
    type_r_sales := some m.type_r_sales
    gp_percent := m.gp_percent
    avg_basket_value := m.avg_basket_value
    avg_basket_size := m.avg_basket_size
    avg_script_value := m.avg_script_value
    adjustments := m.adjustments }

/-- An all zero candidate record, used to build concrete test inputs. -/
def zeroCalc : CalculatedMetrics :=
  { turnover := 0, gp_value := 0, cost_of_sales := 0, purchases := 0, disp_turnover := 0
    transactions_total := 0, script_total := 0, stock_opening := 0, stock_closing := 0
    sales_cash := 0, sales_account := 0, sales_cod := 0, type_r_sales := 0
    gp_percent := some 0, avg_basket_value := some 0, avg_basket_size := some 0
    avg_script_value := some 0, adjustments := some 0 }

/-- An all NULL persisted row, used to build concrete test inputs. -/
def emptyExisting : ExistingRecord :=
  { turnover := none, gp_value := none, cost_of_sales := none, purchases := none
    disp_turnover := none, transactions_total := none, script_total := none
    stock_opening := none, stock_closing := none, sales_cash := none
    sales_account := none, sales_cod := none, type_r_sales := none
    gp_percent := none, avg_basket_value := none, avg_basket_size := none
    avg_script_value := none, adjustments := none }

/-- Applying `compare_and_keep_largest` a second time with the stored result as the
existing value changes nothing. -/
theorem compare_and_keep_largest_idem (e : Option ℚ) (c : ℚ) :
    compare_and_keep_largest (some (compare_and_keep_largest e c)) c =
      compare_and_keep_largest e c := by
  cases e with
  | none =>
    simp only [compare_and_keep_largest]
    split_ifs <;> linarith
  | some a =>
    simp only [compare_and_keep_largest]
    split_ifs <;> linarith

/-- C1 counterexample: with an existing persisted turnover of 0 and a candidate
turnover of -1, `reconcileRecord` stores -1, so the final value is strictly below
the existing value and is not the per field maximum: values can regress. -/
theorem reconcile_monotonicity_cex :
    (reconcileRecord { emptyExisting with turnover := some 0 }
        { zeroCalc with turnover := -1 }).turnover = -1 ∧
      ¬ ((0 : ℚ) ≤ -1) ∧ ¬ ((-1 : ℚ) = max 0 (-1)) := by
  refine ⟨?_, by norm_num, by norm_num⟩
  rfl

/-- C1 (amended): per numeric field the reconciliation computes
`compare_and_keep_largest`, which equals the exact maximum whenever the existing
value is non null and non zero; a null or zero existing value defers to the
candidate unconditionally.  Consequently the final value never regresses below the
existing value whenever the existing value is non zero or the candidate is non
negative (record level statement given for the turnover field). -/
theorem compare_and_keep_largest_max (e c : ℚ) :
    compare_and_keep_largest none c = c ∧
    compare_and_keep_largest (some 0) c = c ∧
    (e ≠ 0 → compare_and_keep_largest (some e) c = max e c) ∧
    (e ≠ 0 ∨ 0 ≤ c → e ≤ compare_and_keep_largest (some e) c) ∧
    (∀ (E : ExistingRecord) (C : CalculatedMetrics),
      E.turnover = some e → (e ≠ 0 ∨ 0 ≤ C.turnover) →
        e ≤ (reconcileRecord E C).turnover) := by
  have hmax : ∀ x : ℚ, e ≠ 0 ∨ 0 ≤ x → e ≤ compare_and_keep_largest (some e) x := by
    intro x hx
    simp only [compare_and_keep_largest]
    rcases hx with h | h
    · split_ifs <;> first | exact absurd ‹e = 0› h | linarith
    · split_ifs <;> linarith
  refine ⟨rfl, by simp [compare_and_keep_largest], ?_, hmax c, ?_⟩
  · intro he
    simp only [compare_and_keep_largest, if_neg he]
    rcases lt_trichotomy c e with h | h | h
    · rw [if_neg (by linarith), max_eq_left (by linarith)]
    · simp [h]
    · rw [if_pos h, max_eq_right (by linarith)]
  · intro E C hE hx
    have : (reconcileRecord E C).turnover =
        compare_and_keep_largest E.turnover C.turnover := rfl
    rw [this, hE]
    exact hmax C.turnover hx

/-- C1 witness: at existing 2 and candidate 3 the reconciliation takes the maximum
and does not regress. -/
theorem compare_and_keep_largest_max_witness :
    compare_and_keep_largest (some 2) 3 = max 2 3 ∧
      (2 : ℚ) ≤ compare_and_keep_largest (some 2) 3 :=
  ⟨(compare_and_keep_largest_max 2 3).2.2.1 (by norm_num),
   (compare_and_keep_largest_max 2 3).2.2.2.1 (Or.inl (by norm_num))⟩

/-- C2: reconciling the same candidate record twice against the store yields the
same final record as reconciling it once, including the derived field bundle. -/
theorem reconcileRecord_idem (E : ExistingRecord) (C : CalculatedMetrics) :
    reconcileRecord (asExisting (reconcileRecord E C)) C = reconcileRecord E C := by
  have hidem := compare_and_keep_largest_idem E.turnover C.turnover
  have hcc : ∀ c : ℚ, compare_and_keep_largest (some c) c = c := by
    intro c
    simp only [compare_and_keep_largest]
    split_ifs <;> linarith
  by_cases h : compare_and_keep_largest E.turnover C.turnover = C.turnover
  · simp [reconcileRecord, asExisting, compare_and_keep_largest_idem, h, hcc]
  · have h2 : compare_and_keep_largest
        (some (compare_and_keep_largest E.turnover C.turnover)) C.turnover ≠
        C.turnover := by
      rw [hidem]; exact h
    simp only [reconcileRecord, asExisting, compare_and_keep_largest_idem,
      if_neg h, if_neg h2]

/-- C3 counterexample: with existing turnover 0 (which is strictly greater than the
candidate turnover -1, hence wins the per field maximum) the derived bundle is
nevertheless taken from the candidate: the stored gp_percent is the candidate
value 20, not the existing value 10. -/
theorem reconcile_bundle_cex :
    ((0 : ℚ) > -1) ∧
      (reconcileRecord { emptyExisting with turnover := some 0, gp_percent := some 10 }
          { zeroCalc with turnover := -1, gp_percent := some 20 }).gp_percent = some 20 ∧
      (some (20 : ℚ) ≠ some (10 : ℚ)) := by
  refine ⟨by norm_num, ?_, by norm_num⟩
  rfl

/-- C3 (amended): the derived bundle is never mixed field by field.  Whenever the
existing turnover is non null, non zero and strictly greater than the candidate
turnover, the final turnover is the existing one and every derived field comes from
the existing bundle; whenever the final turnover equals the candidate turnover,
every derived field comes from the candidate bundle. -/
theorem reconcile_bundle (E : ExistingRecord) (C : CalculatedMetrics) (e : ℚ) :
    (E.turnover = some e → e ≠ 0 → C.turnover < e →
      (reconcileRecord E C).turnover = e ∧
      (reconcileRecord E C).gp_percent = E.gp_percent ∧
      (reconcileRecord E C).avg_basket_value = E.avg_basket_value ∧
      (reconcileRecord E C).avg_basket_size = E.avg_basket_size ∧
      (reconcileRecord E C).avg_script_value = E.avg_script_value ∧
      (reconcileRecord E C).adjustments = E.adjustments) ∧
    ((reconcileRecord E C).turnover = C.turnover →
      (reconcileRecord E C).gp_percent = C.gp_percent ∧
      (reconcileRecord E C).avg_basket_value = C.avg_basket_value ∧
      (reconcileRecord E C).avg_basket_size = C.avg_basket_size ∧
      (reconcileRecord E C).avg_script_value = C.avg_script_value ∧
      (reconcileRecord E C).adjustments = C.adjustments) := by
  constructor
  · intro hE he hlt
    have hfin : compare_and_keep_largest E.turnover C.turnover = e := by
      rw [hE]
      simp only [compare_and_keep_largest, if_neg he]
      rw [if_neg (by linarith)]
    have hne : compare_and_keep_largest E.turnover C.turnover ≠ C.turnover := by
      rw [hfin]; exact fun hc => absurd hc.symm (ne_of_lt hlt)
    refine ⟨hfin, ?_, ?_, ?_, ?_, ?_⟩ <;>
      simp only [reconcileRecord, if_neg hne]
  · intro hfin
    have h : compare_and_keep_largest E.turnover C.turnover = C.turnover := hfin
    refine ⟨?_, ?_, ?_, ?_, ?_⟩ <;>
      simp only [reconcileRecord, if_pos h]

/-- C3 witness: existing turnover 900 with gp_percent 11 against candidate turnover
700 with gp_percent 22 keeps 900 and the existing bundle value 11. -/
theorem reconcile_bundle_witness :
    (reconcileRecord { emptyExisting with turnover := some 900, gp_percent := some 11 }
        { zeroCalc with turnover := 700, gp_percent := some 22 }).turnover = 900 ∧
      (reconcileRecord { emptyExisting with turnover := some 900, gp_percent := some 11 }
          { zeroCalc with turnover := 700, gp_percent := some 22 }).gp_percent =
        some 11 := by
  have h := (reconcile_bundle
    { emptyExisting with turnover := some 900, gp_percent := some 11 }
    { zeroCalc with turnover := 700, gp_percent := some 22 } 900).1
    rfl (by norm_num) (by norm_num)
  exact ⟨h.1, h.2.1⟩

/-- Python round to integer: nearest integer, ties to even (bankers rounding),
as used by round(x, 2) in Scripts/improved_data_pipeline.py. -/
def pyRound (q : ℚ) : ℤ :=
  let f := ⌊q⌋
  if q - f < 1 / 2 then f
  else if q - f > 1 / 2 then f + 1
  else if f % 2 = 0 then f else f + 1

/-- round(x, 2): round to two decimal places. -/
def round2 (q : ℚ) : ℚ := (pyRound (q * 100) : ℚ) / 100

/-- `calculate_basket_size` from Scripts/improved_data_pipeline.py lines 56-60. -/
def calculate_basket_size (transactions_total : ℤ) (total_products_sold : ℚ) : ℚ :=
  if transactions_total > 0 then round2 (total_products_sold / transactions_total)
  else 0

/-- `calculate_basket_value` from Scripts/improved_data_pipeline.py lines 62-66. -/
def calculate_basket_value (turnover : ℚ) (transactions_total : ℤ) : ℚ :=
  if transactions_total > 0 ∧ turnover > 0 then round2 (turnover / transactions_total)
  else 0

/-- C8: over the domain of merged records (non negative transaction count, non
negative turnover as produced by the turnover summary extractor), the average
basket size is round(units sold / transactions, 2), the average basket value is
round(turnover / transactions, 2), and both are exactly 0 when the transaction
count is 0. -/
theorem basket_metrics_spec (turnover total_products_sold : ℚ) (n : ℤ)
    (hturn : 0 ≤ turnover) (hn : 0 ≤ n) :
    calculate_basket_size n total_products_sold =
      (if n = 0 then 0 else round2 (total_products_sold / n)) ∧
    calculate_basket_value turnover n =
      (if n = 0 then 0 else round2 (turnover / n)) := by
  have hr0 : round2 0 = 0 := by
    simp [round2, pyRound]
  constructor
  · rcases lt_or_eq_of_le hn with h | h
    · rw [calculate_basket_size, if_pos h, if_neg (by omega)]
    · rw [calculate_basket_size, if_neg (by omega), if_pos h.symm]
  · rcases lt_or_eq_of_le hn with h | h
    · rcases lt_or_eq_of_le hturn with ht | ht
      · rw [calculate_basket_value, if_pos ⟨h, ht⟩, if_neg (by omega)]
      · rw [calculate_basket_value, if_neg (by rintro ⟨-, h2⟩; exact absurd ht.symm (by linarith)),
          if_neg (by omega), ← ht, zero_div, hr0]
    · rw [calculate_basket_value, if_neg (by rintro ⟨h1, -⟩; omega), if_pos h.symm]

/-- C8 witness: with transaction count 0 both derived metrics are exactly 0, and
with 4 transactions on turnover 100 the basket value is the rounded quotient. -/
theorem basket_metrics_spec_witness :
    calculate_basket_value 100 0 = 0 ∧ calculate_basket_size 0 50 = 0 ∧
      calculate_basket_value 100 4 = round2 (100 / 4) := by
  have h0 := basket_metrics_spec 100 50 0 (by norm_num) (by norm_num)
  have h4 := basket_metrics_spec 100 50 4 (by norm_num) (by norm_num)
  refine ⟨?_, ?_, ?_⟩
  · simpa using h0.2
  · simpa using h0.1
  · simpa using h4.2

/-- One (pharmacy, date) entry of the combined_data dictionary handed to
`compare_with_database_and_update`; the date is None when no report date could be
resolved. -/
structure PipelineEntry where
  pharmacy : String
  date : Option String
  calculated : CalculatedMetrics

/-- One upsert issued by `update_database_record`: the report_date key is a plain
string, never null. -/
structure UpsertCall where
  pharmacy : String
  report_date : String
  metrics : CalculatedMetrics

/-- The loop of `compare_with_database_and_update`
(Scripts/improved_data_pipeline.py lines 263-390): entries whose date is falsy
(None, or the empty string) are skipped with continue, all others are reconciled
against the fetched existing row (`db`) and upserted. -/
def compare_with_database_and_update (db : String → String → ExistingRecord) :
    List PipelineEntry → List UpsertCall
  | [] => []
  | e :: rest =>
    match e.date with
    | none => compare_with_database_and_update db rest
    | some d =>
      if d = "" then compare_with_database_and_update db rest
      else
        ⟨e.pharmacy, d, reconcileRecord (db e.pharmacy d) e.calculated⟩ ::
          compare_with_database_and_update db rest

/-- An entry has a usable date when it is non null and non empty. -/
def validDate : Option String → Bool
  | none => false
  | some d => !(d == "")

/-- C9: an entry with an unresolved (None) date is skipped entirely - the batch
result is exactly the result for the remaining entries - and the full output is
the in order list of upserts for the valid dated entries only, each keyed by its
non null date. -/
theorem skip_null_dates (db : String → String → ExistingRecord) (e : PipelineEntry)
    (rest entries : List PipelineEntry) (hnone : e.date = none) :
    compare_with_database_and_update db (e :: rest) =
      compare_with_database_and_update db rest ∧
    compare_with_database_and_update db entries =
      (entries.filter fun x => validDate x.date).map fun x =>
        ⟨x.pharmacy, x.date.getD "",
          reconcileRecord (db x.pharmacy (x.date.getD "")) x.calculated⟩ := by
  constructor
  · rw [compare_with_database_and_update, hnone]
  · induction entries with
    | nil => rfl
    | cons y ys ih =>
      cases hy : y.date with
      | none => simp [compare_with_database_and_update, hy, ih, validDate]
      | some d =>
        by_cases hd : d = ""
        · simp [compare_with_database_and_update, hy, hd, ih, validDate]
        · simp [compare_with_database_and_update, hy, hd, ih, validDate]

/-- C9 witness: a concrete batch with one None dated entry and one dated entry;
the None entry is skipped and the rest of the batch is processed. -/
theorem skip_null_dates_witness :
    compare_with_database_and_update (fun _ _ => emptyExisting)
        (⟨"REITZ", none, zeroCalc⟩ :: [⟨"REITZ", some "2025-08-05", zeroCalc⟩]) =
      compare_with_database_and_update (fun _ _ => emptyExisting)
        [⟨"REITZ", some "2025-08-05", zeroCalc⟩] :=
  (skip_null_dates (fun _ _ => emptyExisting) ⟨"REITZ", none, zeroCalc⟩
    [⟨"REITZ", some "2025-08-05", zeroCalc⟩] [] rfl).1

/-- One extracted document competing for a category slot in
`extract_and_process_all_data` (Scripts/improved_data_pipeline.py lines 159-203).
The `fields` component stands for the full remaining field set of the document, so
that winning a slot visibly carries the whole document. -/
structure ExtractedItem where
  turnover : ℚ
  transactions_total : ℚ
  total_gross_profit : ℚ
  script_total : ℚ
  fields : ℕ
deriving DecidableEq

/-- The five category slots of the combined_data dictionary. -/
inductive ReportSlot
  | trading
  | turnover_summary
  | transaction
  | gross_profit
  | dispensary
deriving DecidableEq

/-- The category defining metric used in the aggregation comparisons
(lines 184-203): turnover for trading and turnover summaries, transactions_total
for transaction summaries, total_gross_profit for gross profit reports and
script_total for dispensary summaries. -/
def slotMetric : ReportSlot → ExtractedItem → ℚ
  | .trading, it => it.turnover
  | .turnover_summary, it => it.turnover
  | .transaction, it => it.transactions_total
  | .gross_profit, it => it.total_gross_profit
  | .dispensary, it => it.script_total

/-- The per slot aggregation of `extract_and_process_all_data`: the slot starts
empty (falsy) and an arriving item replaces the current one exactly when its
category metric is strictly larger. -/
def aggregateSlot (c : ReportSlot) (items : List ExtractedItem) : Option ExtractedItem :=
  items.foldl
    (fun acc it =>
      match acc with
      | none => some it
      | some cur => if slotMetric c it > slotMetric c cur then some it else some cur)
    none

/-- Folding the slot update from a non empty accumulator picks the first item
attaining the maximum metric among the accumulator and the remaining items. -/
theorem aggregateSlot_go (c : ReportSlot) (items : List ExtractedItem) :
    ∀ cur : ExtractedItem,
      ∃ w l₁ l₂,
        items.foldl
            (fun acc it =>
              match acc with
              | none => some it
              | some cur2 => if slotMetric c it > slotMetric c cur2 then some it
                  else some cur2)
            (some cur) = some w ∧
        cur :: items = l₁ ++ w :: l₂ ∧
        (∀ it ∈ l₁, slotMetric c it < slotMetric c w) ∧
        (∀ it ∈ l₂, slotMetric c it ≤ slotMetric c w) := by
  induction items with
  | nil =>
    intro cur
    exact ⟨cur, [], [], rfl, rfl, by simp, by simp⟩
  | cons it rest ih =>
    intro cur
    by_cases hgt : slotMetric c it > slotMetric c cur
    · obtain ⟨w, l₁, l₂, hw, hdec, hstrict, hle⟩ := ih it
      refine ⟨w, cur :: l₁, l₂, ?_, ?_, ?_, hle⟩
      · simpa [List.foldl_cons, if_pos hgt] using hw
      · simpa using hdec
      · intro x hx
        rcases List.mem_cons.mp hx with rfl | hx2
        · have hit : slotMetric c it ≤ slotMetric c w := by
            rcases l₁ with _ | ⟨a, l₁t⟩
            · rw [List.nil_append] at hdec
              injection hdec with h1 h2
              exact le_of_eq (congrArg (slotMetric c) h1)
            · rw [List.cons_append] at hdec
              injection hdec with h1 h2
              exact le_of_lt (h1 ▸ hstrict a (by simp))
          exact lt_of_lt_of_le hgt hit
        · exact hstrict x hx2
    · obtain ⟨w, l₁, l₂, hw, hdec, hstrict, hle⟩ := ih cur
      rcases l₁ with _ | ⟨a, l₁t⟩
      · rw [List.nil_append] at hdec
        injection hdec with h1 h2
        refine ⟨w, [], it :: rest, ?_, ?_, by simp, ?_⟩
        · simpa [List.foldl_cons, if_neg hgt] using hw
        · simp [h1]
        · intro x hx
          rcases List.mem_cons.mp hx with rfl | hx2
          · exact h1 ▸ le_of_not_lt hgt
          · exact hle x (h2 ▸ hx2)
      · rw [List.cons_append] at hdec
        injection hdec with h1 h2
        refine ⟨w, cur :: it :: l₁t, l₂, ?_, ?_, ?_, hle⟩
        · simpa [List.foldl_cons, if_neg hgt] using hw
        · simp [h2]
        · intro x hx
          have hcur : slotMetric c cur < slotMetric c w := h1 ▸ hstrict a (by simp)
          rcases List.mem_cons.mp hx with rfl | hx2
          · exact hcur
          · rcases List.mem_cons.mp hx2 with rfl | hx3
            · exact lt_of_le_of_lt (le_of_not_lt hgt) hcur
            · exact hstrict x (by simp [hx3])

/-- C4: for every non empty list of same category documents competing for a slot,
the slot holds the first document attaining the maximum of the category defining
metric: all earlier documents are strictly smaller (a strictly larger later
document always wins the slot) and all later ones are no larger (ties keep the
first seen); the winner carries its full field set. -/
theorem aggregateSlot_spec (c : ReportSlot) (items : List ExtractedItem)
    (hne : items ≠ []) :
    ∃ w l₁ l₂,
      aggregateSlot c items = some w ∧
      items = l₁ ++ w :: l₂ ∧
      (∀ it ∈ l₁, slotMetric c it < slotMetric c w) ∧
      (∀ it ∈ l₂, slotMetric c it ≤ slotMetric c w) ∧
      (∀ it ∈ items, slotMetric c it ≤ slotMetric c w) := by
  rcases items with _ | ⟨h, t⟩
  · exact absurd rfl hne
  · obtain ⟨w, l₁, l₂, hw, hdec, hstrict, hle⟩ := aggregateSlot_go c t h
    refine ⟨w, l₁, l₂, ?_, hdec, hstrict, hle, ?_⟩
    · simpa [aggregateSlot, List.foldl_cons] using hw
    · intro x hx
      rw [hdec] at hx
      rcases List.mem_append.mp hx with hx1 | hx2
      · exact le_of_lt (hstrict x hx1)
      · rcases List.mem_cons.mp hx2 with rfl | hx3
        · exact le_refl _
        · exact hle x hx3

/-- A trading summary extraction with turnover 500. -/
def tradingDoc500 : ExtractedItem := ⟨500, 0, 0, 0, 1⟩

/-- A trading summary extraction with turnover 700. -/
def tradingDoc700 : ExtractedItem := ⟨700, 0, 0, 0, 2⟩

/-- C4 witness: two trading summary documents with turnovers 500 and 700: the slot
keeps the 700 document with its full field set. -/
theorem aggregateSlot_spec_witness :
    (∃ w l₁ l₂,
      aggregateSlot .trading [tradingDoc500, tradingDoc700] = some w ∧
      [tradingDoc500, tradingDoc700] = l₁ ++ w :: l₂ ∧
      (∀ it ∈ l₁, slotMetric .trading it < slotMetric .trading w) ∧
      (∀ it ∈ l₂, slotMetric .trading it ≤ slotMetric .trading w) ∧
      (∀ it ∈ [tradingDoc500, tradingDoc700],
        slotMetric .trading it ≤ slotMetric .trading w)) ∧
    aggregateSlot .trading [tradingDoc500, tradingDoc700] = some tradingDoc700 :=
  ⟨aggregateSlot_spec .trading [tradingDoc500, tradingDoc700] (by simp), by decide⟩

/-- One classified PDF as seen by `keep_latest_versions`
(Scripts/test_deduplication.py lines 14-59): the filename parses as
report_type _ hhmm _ rest, the parent directory is the pharmacy and the
grandparent the date; `path` stands for the full filesystem path, which is what
the removal pass compares.  Python compares the hhmm markers as strings, which is
the lexicographic order on their character sequences (`.data` below). -/
structure PdfFile where
  report_type : String
  hhmm : String
  pharmacy : String
  date_str : String
  path : ℕ
deriving DecidableEq

/-- The grouping key (date_str, pharmacy, report_type) of `keep_latest_versions`. -/
def fileKey (f : PdfFile) : String × String × String :=
  (f.date_str, f.pharmacy, f.report_type)

/-- Lookup in the latest_map dictionary, modelled as an association list. -/
def lookupKey (k : String × String × String) :
    List ((String × String × String) × PdfFile) → Option PdfFile
  | [] => none
  | (k2, f) :: rest => if k2 = k then some f else lookupKey k rest

/-- One step of the first pass of `keep_latest_versions`: a file replaces the
stored entry for its key exactly when its time marker is strictly larger
(lexicographic string comparison, as in Python); an unseen key is inserted. -/
def updateLatest (m : List ((String × String × String) × PdfFile)) (f : PdfFile) :
    List ((String × String × String) × PdfFile) :=
  match lookupKey (fileKey f) m with
  | none => m ++ [(fileKey f, f)]
  | some g =>
    if g.hhmm.data < f.hhmm.data then
      m.map fun p => if p.1 = fileKey f then (p.1, f) else p
    else m

/-- The latest_map built by the first rglob pass of `keep_latest_versions`. -/
def latest_map (files : List PdfFile) : List ((String × String × String) × PdfFile) :=
  files.foldl updateLatest []

/-- The second rglob pass of `keep_latest_versions`: a file is selected for
removal when its key is in latest_map and the stored path differs from its own. -/
def files_to_remove (files : List PdfFile) : List PdfFile :=
  files.filter fun f =>
    match lookupKey (fileKey f) (latest_map files) with
    | some g => g.path != f.path
    | none => false

/-- The running winner of a single key group: keep the current entry unless the
next file has a strictly larger time marker. -/
def bestOf (cur : PdfFile) (files : List PdfFile) : PdfFile :=
  files.foldl (fun a f => if a.hhmm.data < f.hhmm.data then f else a) cur

/-- Unfolding one step of `bestOf`. -/
theorem bestOf_cons (cur f : PdfFile) (rest : List PdfFile) :
    bestOf cur (f :: rest) =
      bestOf (if cur.hhmm.data < f.hhmm.data then f else cur) rest := rfl

/-- Folding `updateLatest` over files of a single key keeps a single entry,
namely the running winner. -/
theorem latest_map_single (k : String × String × String) (files : List PdfFile) :
    ∀ cur : PdfFile, (∀ f ∈ files, fileKey f = k) → fileKey cur = k →
      files.foldl updateLatest [(k, cur)] = [(k, bestOf cur files)] := by
  induction files with
  | nil => intro cur _ _; rfl
  | cons f rest ih =>
    intro cur hkey hcur
    have hfk : fileKey f = k := hkey f (by simp)
    have hstep : updateLatest [(k, cur)] f =
        [(k, if cur.hhmm.data < f.hhmm.data then f else cur)] := by
      rw [updateLatest, hfk]
      simp only [lookupKey, if_pos rfl]
      by_cases h : cur.hhmm.data < f.hhmm.data
      · simp [h]
      · simp [h]
    rw [List.foldl_cons, hstep, bestOf_cons]
    exact ih _ (fun g hg => hkey g (by simp [hg]))
      (by by_cases h : cur.hhmm.data < f.hhmm.data
          · rw [if_pos h]; exact hfk
          · rw [if_neg h]; exact hcur)

/-- The running winner is one of the group members. -/
theorem bestOf_mem (files : List PdfFile) : ∀ cur, bestOf cur files ∈ cur :: files := by
  induction files with
  | nil => intro cur; simp [bestOf]
  | cons f rest ih =>
    intro cur
    rw [bestOf_cons]
    by_cases h : cur.hhmm.data < f.hhmm.data
    · rw [if_pos h]
      rcases List.mem_cons.mp (ih f) with h2 | h2 <;> simp [h2]
    · rw [if_neg h]
      rcases List.mem_cons.mp (ih cur) with h2 | h2 <;> simp [h2]

/-- The running winner carries the largest time marker of the group. -/
theorem bestOf_le (files : List PdfFile) :
    ∀ cur, ∀ f ∈ cur :: files, f.hhmm.data ≤ (bestOf cur files).hhmm.data := by
  induction files with
  | nil =>
    intro cur f hf
    simp at hf
    simp [bestOf, hf]
  | cons g rest ih =>
    intro cur f hf
    rw [bestOf_cons]
    have hcur_le : cur.hhmm.data ≤
        (if cur.hhmm.data < g.hhmm.data then g else cur).hhmm.data := by
      split_ifs with h
      · exact le_of_lt h
      · exact le_refl _
    have hg_le : g.hhmm.data ≤
        (if cur.hhmm.data < g.hhmm.data then g else cur).hhmm.data := by
      split_ifs with h
      · exact le_refl _
      · exact le_of_not_lt h
    have hnxt_le := ih (if cur.hhmm.data < g.hhmm.data then g else cur)
      (if cur.hhmm.data < g.hhmm.data then g else cur) (by simp)
    rcases List.mem_cons.mp hf with h1 | hf2
    · rw [h1]; exact le_trans hcur_le hnxt_le
    · rcases List.mem_cons.mp hf2 with h1 | hf3
      · rw [h1]; exact le_trans hg_le hnxt_le
      · exact ih _ f (List.mem_cons.mpr (Or.inr hf3))

/-- C7: over a non empty group of files sharing one (date, pharmacy, report_type)
key, with pairwise distinct time markers and pairwise distinct paths,
`keep_latest_versions` keeps exactly one file - the one with the lexicographically
largest marker - and selects every other file of the group for removal. -/
theorem keep_latest_spec (k : String × String × String) (files : List PdfFile)
    (hne : files ≠ []) (hkey : ∀ f ∈ files, fileKey f = k)
    (htime : files.Pairwise fun a b => a.hhmm ≠ b.hhmm)
    (hpath : files.Pairwise fun a b => a.path ≠ b.path) :
    ∃ m, m ∈ files ∧ latest_map files = [(k, m)] ∧
      (∀ f ∈ files, f.hhmm.data ≤ m.hhmm.data) ∧
      (∀ f ∈ files, f ≠ m → f.hhmm.data < m.hhmm.data ∧ f ∈ files_to_remove files) ∧
      m ∉ files_to_remove files := by
  rcases files with _ | ⟨h, t⟩
  · exact absurd rfl hne
  · have hmap : latest_map (h :: t) = [(k, bestOf h t)] := by
      have hstep : updateLatest [] h = [(fileKey h, h)] := rfl
      rw [latest_map, List.foldl_cons, hstep, hkey h (by simp)]
      exact latest_map_single k t h (fun g hg => hkey g (by simp [hg]))
        (hkey h (by simp))
    refine ⟨bestOf h t, bestOf_mem t h, hmap, fun f hf => bestOf_le t h f hf, ?_, ?_⟩
    · intro f hf hne2
      have hlt : f.hhmm.data < (bestOf h t).hhmm.data := by
        have hle := bestOf_le t h f hf
        have hne3 : f.hhmm ≠ (bestOf h t).hhmm :=
          htime.forall (fun a b hab => hab.symm) hf (bestOf_mem t h) hne2
        exact lt_of_le_of_ne hle (fun hc => hne3 (String.ext hc))
      refine ⟨hlt, ?_⟩
      rw [files_to_remove, List.mem_filter]
      have hps : f.path ≠ (bestOf h t).path :=
        hpath.forall (fun a b hab => hab.symm) hf (bestOf_mem t h) hne2
      have hlook : lookupKey (fileKey f) (latest_map (h :: t)) = some (bestOf h t) := by
        rw [hmap, hkey f hf]
        simp [lookupKey]
      refine ⟨hf, ?_⟩
      simp only [hlook]
      exact bne_iff_ne.mpr fun hc => hps hc.symm
    · rw [files_to_remove, List.mem_filter]
      rintro ⟨hmem, hcond⟩
      have hlook : lookupKey (fileKey (bestOf h t)) (latest_map (h :: t)) =
          some (bestOf h t) := by
        rw [hmap, hkey _ hmem]
        simp [lookupKey]
      simp only [hlook] at hcond
      simp at hcond

/-- First file of the witness group, marker 0800. -/
def pdf0800 : PdfFile := ⟨"trading_summary", "0800", "REITZ", "2025-08-05", 1⟩

/-- Second file of the witness group, marker 1530. -/
def pdf1530 : PdfFile := ⟨"trading_summary", "1530", "REITZ", "2025-08-05", 2⟩

/-- Third file of the witness group, marker 0900. -/
def pdf0900 : PdfFile := ⟨"trading_summary", "0900", "REITZ", "2025-08-05", 3⟩

/-- C7 witness: in the concrete three file group the 1530 file is the unique
survivor and both other files are selected for removal. -/
theorem keep_latest_spec_witness :
    (∃ m, m ∈ [pdf0800, pdf1530, pdf0900] ∧
      latest_map [pdf0800, pdf1530, pdf0900] =
        [(("2025-08-05", "REITZ", "trading_summary"), m)] ∧
      (∀ f ∈ [pdf0800, pdf1530, pdf0900], f.hhmm.data ≤ m.hhmm.data) ∧
      (∀ f ∈ [pdf0800, pdf1530, pdf0900], f ≠ m →
        f.hhmm.data < m.hhmm.data ∧ f ∈ files_to_remove [pdf0800, pdf1530, pdf0900]) ∧
      m ∉ files_to_remove [pdf0800, pdf1530, pdf0900]) ∧
    latest_map [pdf0800, pdf1530, pdf0900] =
      [(("2025-08-05", "REITZ", "trading_summary"), pdf1530)] :=
  ⟨keep_latest_spec ("2025-08-05", "REITZ", "trading_summary")
      [pdf0800, pdf1530, pdf0900] (by simp)
      (by intro f hf; fin_cases hf <;> rfl)
      (by decide) (by decide),
    by decide⟩

/-- Python substring containment kw in text, on character lists. -/
def containsKeyword (kw : List Char) : List Char → Bool
  | [] => kw.isEmpty
  | c :: rest => kw.isPrefixOf (c :: rest) || containsKeyword kw rest

/-- The five report categories, in the declaration order of REPORT_KEYWORDS
(Scripts/improved_classify_and_organize.py lines 38-44, identical dictionary in
Scripts/classify_and_organize_pdfs.py lines 9-15). -/
inductive ReportType
  | turnover_summary
  | gross_profit_report
  | trading_summary
  | dispensary_summary
  | transaction_summary
deriving DecidableEq

/-- REPORT_KEYWORDS from Scripts/improved_classify_and_organize.py lines 38-44. -/
def REPORT_KEYWORDS : ReportType → List (List Char)
  | .turnover_summary =>
    ["TOTAL TURNOVER".toList, "GP %".toList, "BASKET VALUE".toList, "TRANSACTIONS".toList]
  | .gross_profit_report =>
    ["GROSS PROFIT".toList, "STOCK CODE".toList, "SALES QTY".toList, "DEPT".toList]
  | .trading_summary =>
    ["OPENING STOCK".toList, "CLOSING STOCK".toList, "PURCHASES".toList,
      "ADJUSTMENTS".toList]
  | .dispensary_summary =>
    ["SCRIPT STATISTICS".toList, "CLAIMABLE SCRIPTS".toList, "PRIVATE SCRIPTS".toList,
      "DOCTOR SCRIPT".toList]
  | .transaction_summary => ["INVOICING AUDIT TRAIL".toList]

/-- The score of one category: how many of its keyword phrases occur in the text
(sum(1 for kw in keywords if kw in text) in classify_pdf). -/
def keywordScore (text : List Char) (rt : ReportType) : ℕ :=
  ((REPORT_KEYWORDS rt).filter fun kw => containsKeyword kw text).length

/-- `classify_pdf` from Scripts/classify_and_organize_pdfs.py lines 129-147: the
page text is upper cased, each category is scored, and max over the dictionary in
insertion order returns the first category attaining the maximal score (Python max
replaces the running best only on a strictly larger key); a best score of zero
yields unknown, modelled as none. -/
def classify_pdf (raw : List Char) : Option ReportType :=
  let text := raw.map Char.toUpper
  let best :=
    [ReportType.gross_profit_report, ReportType.trading_summary,
      ReportType.dispensary_summary, ReportType.transaction_summary].foldl
      (fun acc rt => if keywordScore text rt > keywordScore text acc then rt else acc)
      ReportType.turnover_summary
  if keywordScore text best = 0 then none else some best

/-- The categories listed before a given one in declaration order. -/
def earlierTypes : ReportType → List ReportType
  | .turnover_summary => []
  | .gross_profit_report => [.turnover_summary]
  | .trading_summary => [.turnover_summary, .gross_profit_report]
  | .dispensary_summary =>
    [.turnover_summary, .gross_profit_report, .trading_summary]
  | .transaction_summary =>
    [.turnover_summary, .gross_profit_report, .trading_summary, .dispensary_summary]

/-- C5 (amended): classify_pdf is a total function of the text over the five
fixed keyword sets of 1 to 4 literal phrases each; it returns unknown (none)
exactly when every category scores zero against the upper cased text, and
otherwise returns the first category in declaration order attaining the maximal
keyword match count: every category scores no higher, and every earlier category
scores strictly lower. -/
theorem classify_pdf_spec (raw : List Char) :
    (∀ rt, 1 ≤ (REPORT_KEYWORDS rt).length ∧ (REPORT_KEYWORDS rt).length ≤ 4) ∧
    (classify_pdf raw = none ↔
      ∀ rt, keywordScore (raw.map Char.toUpper) rt = 0) ∧
    (∀ rt, classify_pdf raw = some rt →
      (∀ rt2, keywordScore (raw.map Char.toUpper) rt2 ≤
        keywordScore (raw.map Char.toUpper) rt) ∧
      (∀ rt2 ∈ earlierTypes rt, keywordScore (raw.map Char.toUpper) rt2 <
        keywordScore (raw.map Char.toUpper) rt)) := by
  refine ⟨fun rt => by cases rt <;> exact ⟨by decide, by decide⟩, ?_⟩
  simp only [classify_pdf, List.foldl_cons, List.foldl_nil]
  split_ifs <;>
    refine ⟨⟨fun h0 => ?_, fun hall => ?_⟩, fun rt hrt => ?_⟩ <;>
    first
    | trivial
    | exact h0.elim
    | exact hrt.elim
    | exact Option.noConfusion h0
    | exact Option.noConfusion hrt
    | exact absurd (hall _) (by assumption)
    | (intro rt; cases rt <;> omega)
    | (injection hrt with hh; subst hh;
       exact ⟨fun rt2 => by cases rt2 <;> omega,
         fun rt2 hrt2 => by cases rt2 <;> simp [earlierTypes] at hrt2 <;> omega⟩)

/-- C5 counterexample: the claim asserts 3 to 4 keyword phrases per category, but
the transaction_summary keyword set contains exactly one phrase. -/
theorem classify_keyword_count_cex :
    (REPORT_KEYWORDS ReportType.transaction_summary).length = 1 ∧
      ¬ 3 ≤ (REPORT_KEYWORDS ReportType.transaction_summary).length := by
  exact ⟨rfl, by decide⟩

/-- C5 witness: a text containing two trading summary phrases and no others is
classified as trading_summary, which indeed attains the maximal score. -/
theorem classify_pdf_spec_witness :
    classify_pdf "OPENING STOCK AND CLOSING STOCK".toList =
      some ReportType.trading_summary ∧
    (∀ rt2, keywordScore ("OPENING STOCK AND CLOSING STOCK".toList.map Char.toUpper) rt2 ≤
      keywordScore ("OPENING STOCK AND CLOSING STOCK".toList.map Char.toUpper)
        ReportType.trading_summary) := by
  have h := (classify_pdf_spec "OPENING STOCK AND CLOSING STOCK".toList).2.2
    ReportType.trading_summary (by decide)
  exact ⟨by decide, h.1⟩

/-- Python regex class \d on the report texts (ASCII digits). -/
def isDigitChar (c : Char) : Bool := '0' ≤ c && c ≤ '9'

/-- Python regex class \s on the report texts (ASCII whitespace). -/
def isSpaceChar (c : Char) : Bool :=
  c == ' ' || c == '\t' || c == '\n' || c == '\r' || c == '\x0b' || c == '\x0c'

/-- Case insensitive character comparison, as the patterns run under
re.IGNORECASE. -/
def ciEq (p c : Char) : Bool := p.toLower == c.toLower

/-- Drop the maximal leading whitespace run. -/
def dropSpaces : List Char → List Char
  | c :: s => if isSpaceChar c then dropSpaces s else c :: s
  | [] => []

/-- All splittings produced by the greedy star (?:,\d{3})* - most iterations
first, as regex backtracking prefers. -/
def commaSplits : List Char → List (List Char × List Char)
  | ',' :: a :: b :: c :: r =>
    if isDigitChar a && isDigitChar b && isDigitChar c then
      ((commaSplits r).map fun p => (',' :: a :: b :: c :: p.1, p.2)) ++
        [([], ',' :: a :: b :: c :: r)]
    else [([], ',' :: a :: b :: c :: r)]
  | s => [([], s)]

/-- The greedy candidates of \d{1,3}: three, two or one leading digits, in that
preference order. -/
def numPrefixCands (s : List Char) : List (List Char × List Char) :=
  [3, 2, 1].filterMap fun k =>
    if (s.take k).length = k ∧ (s.take k).all isDigitChar then
      some (s.take k, s.drop k)
    else none

/-- The tail of an amount group after the integer digits and comma groups: the
decimal dot with exactly two digits \.\d{2}, then the optional trailing minus
[-]? (greedy, so the minus bearing candidate is preferred) when allowMinus is
set.  core0 is what the group has captured so far. -/
def minusCands (core : List Char) : List Char → List (List Char × List Char)
  | d :: r4 =>
    if d = '-' then [(core ++ [d], r4), (core, d :: r4)] else [(core, d :: r4)]
  | [] => [(core, [])]

/-- The decimal tail of an amount group: the dot with exactly two digits
\.\d{2}, then the optional minus when allowMinus is set. -/
def numTailCands (allowMinus : Bool) (core0 : List Char) :
    List Char → List (List Char × List Char)
  | c0 :: a :: b :: r3 =>
    if c0 = '.' && isDigitChar a && isDigitChar b then
      if allowMinus then minusCands (core0 ++ [c0, a, b]) r3
      else [(core0 ++ [c0, a, b], r3)]
    else []
  | _ => []

/-- All candidate matches of a captured amount group \d{1,3}(?:,\d{3})*\.\d{2}
with an optional trailing minus ([-]?) when allowMinus is set, in regex
backtracking preference order.  Each candidate is the captured characters
together with the remaining text. -/
def numCandidates (allowMinus : Bool) (s : List Char) : List (List Char × List Char) :=
  (numPrefixCands s).flatMap fun pre =>
    (commaSplits pre.2).flatMap fun grp =>
      numTailCands allowMinus (pre.1 ++ grp.1) grp.2

/-- Pattern tokens for the totals line regexes of extract_turnover_summary_data:
a (case insensitive) literal, \s*, \s+, and a captured amount group. -/
inductive Tok
  | lit (c : Char)
  | sp0
  | sp1
  | numGrp (allowMinus : Bool)
deriving DecidableEq

/-- Sequential matcher with explicit fuel (one unit per consumed token, so
pattern length + 1 always suffices); returns the captured groups in order and
the remaining text.  Whitespace quantifiers take their maximal run: in every
pattern below they are followed by a non whitespace literal or by a digit, so
this coincides with the greedy backtracking regex semantics; amount groups
backtrack through numCandidates in preference order. -/
def matchToks : ℕ → List Tok → List Char → Option (List (List Char) × List Char)
  | 0, _, _ => none
  | _ + 1, [], s => some ([], s)
  | fuel + 1, Tok.lit c :: ts, s =>
    match s with
    | d :: s2 => if ciEq c d then matchToks fuel ts s2 else none
    | [] => none
  | fuel + 1, Tok.sp0 :: ts, s => matchToks fuel ts (dropSpaces s)
  | fuel + 1, Tok.sp1 :: ts, s =>
    match s with
    | d :: s2 => if isSpaceChar d then matchToks fuel ts (dropSpaces s2) else none
    | [] => none
  | fuel + 1, Tok.numGrp m :: ts, s =>
    (numCandidates m s).findSome? fun p =>
      (matchToks fuel ts p.2).map fun r => (p.1 :: r.1, r.2)

/-- The matcher with its canonical (always sufficient) fuel. -/
def matchToksF (ts : List Tok) (s : List Char) : Option (List (List Char) × List Char) :=
  matchToks (ts.length + 1) ts s

/-- re.search: try the pattern at every start position, leftmost match wins. -/
def searchToks (ts : List Tok) : List Char → Option (List (List Char))
  | [] =>
    match matchToksF ts [] with
    | some r => some r.1
    | none => none
  | c :: t =>
    match matchToksF ts (c :: t) with
    | some r => some r.1
    | none => searchToks ts t

/-- The lazy gap .*? of the turnover fallback pattern: try the continuation at
the current position first, else skip one character, which must not be a
newline. -/
def lazyScan (ts : List Tok) : List Char → Option (List (List Char))
  | [] => (matchToksF ts []).map fun r => r.1
  | c :: t =>
    match matchToksF ts (c :: t) with
    | some r => some r.1
    | none => if c = '\n' then none else lazyScan ts t

/-- re.search for a pattern of the shape header .*? rest. -/
def searchLazy (hdr rest : List Tok) : List Char → Option (List (List Char))
  | [] =>
    match (matchToksF hdr []).bind fun r => lazyScan rest r.2 with
    | some caps => some caps
    | none => none
  | c :: t =>
    match (matchToksF hdr (c :: t)).bind fun r => lazyScan rest r.2 with
    | some caps => some caps
    | none => searchLazy hdr rest t

/-- A literal word of the pattern. -/
def litToks (s : String) : List Tok := s.toList.map Tok.lit

/-- The three column totals line \*\*\s*HEADER\s+(amount)\s+(amount[-]?)\s+(amount)
of Scripts/extract_turnover_summary.py lines 39-57: gross, discount (which may
carry a trailing minus inside its group), and net. -/
def totalsLineToks (header : List Tok) : List Tok :=
  [Tok.lit '*', Tok.lit '*', Tok.sp0] ++ header ++
    [Tok.sp1, Tok.numGrp false, Tok.sp1, Tok.numGrp true, Tok.sp1, Tok.numGrp false]

/-- The TOTAL TURNOVER totals line pattern (first turnover pattern). -/
def turnoverPat1 : List Tok := totalsLineToks (litToks "TOTAL TURNOVER")

/-- The CASH TOTALS totals line pattern. -/
def cashPat : List Tok := totalsLineToks (litToks "CASH TOTALS")

/-- The STANDARD ACCOUNTS totals line pattern. -/
def accountPat : List Tok := totalsLineToks (litToks "STANDARD ACCOUNTS")

/-- The C\.O\.D\.\s*ACCOUNTS totals line pattern. -/
def codPat : List Tok :=
  totalsLineToks (litToks "C.O.D." ++ [Tok.sp0] ++ litToks "ACCOUNTS")

/-- Header of the fallback turnover pattern TURNOVER SUMMARY.*?(amount)\s+Nett
\s+\(Exclusive\). -/
def turnoverPat2Hdr : List Tok := litToks "TURNOVER SUMMARY"

/-- Continuation of the fallback turnover pattern after the lazy gap. -/
def turnoverPat2Rest : List Tok :=
  [Tok.numGrp false, Tok.sp1] ++ litToks "Nett" ++ [Tok.sp1] ++ litToks "(Exclusive)"

/-- Numeric value of an ASCII digit. -/
def digitVal (c : Char) : ℕ := c.toNat - '0'.toNat

/-- Value of a digit string. -/
def digitsToNat (s : List Char) : ℕ := s.foldl (fun a c => 10 * a + digitVal c) 0

/-- Split at the first dot, if any. -/
def splitAtDot : List Char → List Char × Option (List Char)
  | [] => ([], none)
  | c :: r =>
    if c = '.' then ([], some r)
    else
      let p := splitAtDot r
      (c :: p.1, p.2)

/-- float(value_str) on the matched amount shapes (digits with one dot): the
integer part plus the fractional digits over the matching power of ten. -/
def parseFloat (s : List Char) : ℚ :=
  match splitAtDot s with
  | (i, none) => mkRat (digitsToNat i) 1
  | (i, some f) => mkRat (digitsToNat i * 10 ^ f.length + digitsToNat f) (10 ^ f.length)

/-- value_str.replace(",", "") followed by the negative marker branch of
extract_turnover_summary_data lines 72-77: a minus anywhere in the captured
group negates the parsed amount. -/
def parseNum (s0 : List Char) : ℚ :=
  let s := s0.filter fun c => c != ','
  if '-' ∈ s then -parseFloat (s.filter fun c => c != '-') else parseFloat s

/-- The extraction result of extract_turnover_summary_data: all four fields are
Option valued (None when no pattern matched). -/
structure TurnoverSummaryData where
  turnover : Option ℚ
  sales_cash : Option ℚ
  sales_account : Option ℚ
  sales_cod : Option ℚ
deriving DecidableEq

/-- Apply one three group totals pattern and read the third captured group (the
net of discount, net of VAT column), as in match.group(3). -/
def extractThird (pat : List Tok) (text : List Char) : Option ℚ :=
  (searchToks pat text).bind fun caps => (caps.get? 2).map parseNum

/-- `extract_turnover_summary_data` from Scripts/extract_turnover_summary.py
lines 39-82 as a function of the extracted page text: each field tries its
patterns in order and keeps the first match; the turnover fallback pattern has a
single captured group, read through the len(groups) == 1 special case. -/
def extract_turnover_summary_data (text : List Char) : TurnoverSummaryData :=
  { turnover :=
      match extractThird turnoverPat1 text with
      | some v => some v
      | none =>
        (searchLazy turnoverPat2Hdr turnoverPat2Rest text).bind fun caps =>
          (caps.get? 0).map parseNum
    sales_cash := extractThird cashPat text
    sales_account := extractThird accountPat text
    sales_cod := extractThird codPat text }

/-- The characters an amount group capture can contain: digits, thousands
separators, the decimal dot, and - only when the group allows it - a trailing
minus. -/
def numCharOK (allowMinus : Bool) (c : Char) : Prop :=
  isDigitChar c = true ∨ c = ',' ∨ c = '.' ∨ (allowMinus = true ∧ c = '-')

/-- Characters consumed by the comma group star are digits or commas. -/
theorem commaSplits_chars (s : List Char) :
    ∀ p ∈ commaSplits s, ∀ c ∈ p.1, isDigitChar c = true ∨ c = ',' := by
  induction s using commaSplits.induct with
  | case1 a b c r hd ih =>
    intro p hp
    rw [commaSplits, if_pos hd] at hp
    rcases List.mem_append.mp hp with hp1 | hp2
    · obtain ⟨q, hq, hpq⟩ := List.mem_map.mp hp1
      intro d hd2
      rw [← hpq] at hd2
      simp only [List.mem_cons] at hd2
      rcases hd2 with rfl | rfl | rfl | rfl | hd3
      · exact Or.inr rfl
      · exact Or.inl (by simp_all [Bool.and_eq_true] )
      · exact Or.inl (by simp_all [Bool.and_eq_true])
      · exact Or.inl (by simp_all [Bool.and_eq_true])
      · exact ih q hq d hd3
    · simp only [List.mem_singleton] at hp2
      rw [hp2]
      intro d hd2
      simp at hd2
  | case2 a b c r hd =>
    intro p hp
    rw [commaSplits, if_neg hd] at hp
    simp only [List.mem_singleton] at hp
    rw [hp]
    intro d hd2
    simp at hd2
  | case3 s hs =>
    intro p hp
    rw [commaSplits.eq_def] at hp
    split at hp
    · exact absurd rfl (hs _ _ _ _)
    · simp only [List.mem_singleton] at hp
      rw [hp]
      intro d hd2
      simp at hd2


/-- Characters of a \d{1,3} candidate are digits. -/
theorem numPrefixCands_chars (s : List Char) :
    ∀ p ∈ numPrefixCands s, ∀ c ∈ p.1, isDigitChar c = true := by
  intro p hp c hc
  rw [numPrefixCands] at hp
  obtain ⟨k, -, hpk⟩ := List.mem_filterMap.mp hp
  split_ifs at hpk with h
  rw [Option.some.injEq] at hpk
  rw [← hpk] at hc
  exact List.all_eq_true.mp h.2 c hc

/-- Characters produced by the amount group tail extend core0 with the dot, two
digits, and possibly the minus. -/
theorem numTailCands_chars (m : Bool) (core0 : List Char)
    (hcore0 : ∀ c ∈ core0, numCharOK m c) (t : List Char) :
    ∀ p ∈ numTailCands m core0 t, ∀ c ∈ p.1, numCharOK m c := by
  intro p hp
  have hcons : ∀ (c0 a b : Char), c0 = '.' → isDigitChar a = true →
      isDigitChar b = true → ∀ c ∈ core0 ++ [c0, a, b], numCharOK m c := by
    intro c0 a b hc0 ha hb c hc
    rcases List.mem_append.mp hc with hc1 | hc2
    · exact hcore0 c hc1
    · simp only [List.mem_cons, List.not_mem_nil, or_false] at hc2
      rcases hc2 with rfl | rfl | rfl
      · exact Or.inr (Or.inr (Or.inl hc0))
      · exact Or.inl ha
      · exact Or.inl hb
  rcases t with _ | ⟨c0, _ | ⟨a, _ | ⟨b, r3⟩⟩⟩
  · simp [numTailCands] at hp
  · simp [numTailCands] at hp
  · simp [numTailCands] at hp
  · simp only [numTailCands] at hp
    by_cases h1 : (decide (c0 = '.') && isDigitChar a && isDigitChar b) = true
    · have hc0 : c0 = '.' := by
        have h2 := (Bool.and_eq_true _ _ ▸ h1).1
        exact of_decide_eq_true (Bool.and_eq_true _ _ ▸ h2).1
      have ha : isDigitChar a = true := by
        have h2 := (Bool.and_eq_true _ _ ▸ h1).1
        exact (Bool.and_eq_true _ _ ▸ h2).2
      have hb : isDigitChar b = true := (Bool.and_eq_true _ _ ▸ h1).2
      rw [if_pos h1] at hp
      cases m with
      | false =>
        rw [if_neg (by simp : ¬(false = true))] at hp
        simp only [List.mem_singleton] at hp
        rw [hp]
        exact hcons c0 a b hc0 ha hb
      | true =>
        rw [if_pos rfl] at hp
        rcases r3 with _ | ⟨d, r4⟩
        · simp only [minusCands, List.mem_singleton] at hp
          rw [hp]
          exact hcons c0 a b hc0 ha hb
        · simp only [minusCands] at hp
          by_cases hd : d = '-'
          · rw [if_pos hd] at hp
            simp only [List.mem_cons, List.mem_singleton, List.not_mem_nil, or_false]
              at hp
            rcases hp with hp4 | hp4 <;> rw [hp4]
            · intro c hc
              rcases List.mem_append.mp hc with hc1 | hc2
              · exact hcons c0 a b hc0 ha hb c hc1
              · simp only [List.mem_singleton] at hc2
                rw [hc2, hd]
                exact Or.inr (Or.inr (Or.inr ⟨rfl, rfl⟩))
            · exact hcons c0 a b hc0 ha hb
          · rw [if_neg hd] at hp
            simp only [List.mem_singleton] at hp
            rw [hp]
            exact hcons c0 a b hc0 ha hb
    · rw [if_neg h1] at hp
      simp at hp

/-- Every character captured by an amount group candidate is a digit, a comma, a
dot, or - only when the group allows it - a minus. -/
theorem numCandidates_chars (m : Bool) (s : List Char) :
    ∀ p ∈ numCandidates m s, ∀ c ∈ p.1, numCharOK m c := by
  intro p hp
  rw [numCandidates] at hp
  obtain ⟨pre, hpre, hp2⟩ := List.mem_flatMap.mp hp
  obtain ⟨grp, hgrp, hp3⟩ := List.mem_flatMap.mp hp2
  have hpredig := numPrefixCands_chars s pre hpre
  have hgrpdig := commaSplits_chars pre.2 grp hgrp
  refine numTailCands_chars m (pre.1 ++ grp.1) ?_ grp.2 p hp3
  intro c hc
  rcases List.mem_append.mp hc with hc1 | hc2
  · exact Or.inl (hpredig c hc1)
  · rcases hgrpdig c hc2 with h | h
    · exact Or.inl h
    · exact Or.inr (Or.inl h)

/-- A successful findSome? comes from some list element. -/
theorem findSome_eq_some {α β : Type} (f : α → Option β) :
    ∀ (l : List α) (b : β), l.findSome? f = some b → ∃ a ∈ l, f a = some b := by
  intro l
  induction l with
  | nil => intro b h; simp [List.findSome?] at h
  | cons x xs ih =>
    intro b h
    rw [List.findSome?_cons] at h
    cases hx : f x with
    | some v =>
      rw [hx] at h
      simp only [Option.some.injEq] at h
      exact ⟨x, by simp, by rw [hx, h]⟩
    | none =>
      rw [hx] at h
      obtain ⟨a, ha, hfa⟩ := ih b h
      exact ⟨a, by simp [ha], hfa⟩

/-- The capture group flags of a pattern, in order. -/
def groupFlags (ts : List Tok) : List Bool :=
  ts.filterMap fun t =>
    match t with
    | Tok.numGrp m => some m
    | _ => none

/-- A successful matchToks run captures, group by group, strings whose
characters satisfy the group flag invariant. -/
theorem matchToks_groups :
    ∀ (fuel : ℕ) (ts : List Tok) (s : List Char) (caps : List (List Char))
      (r : List Char), matchToks fuel ts s = some (caps, r) →
      List.Forall₂ (fun m cap => ∀ c ∈ cap, numCharOK m c) (groupFlags ts) caps := by
  intro fuel
  induction fuel with
  | zero =>
    intro ts s caps r h
    simp [matchToks] at h
  | succ fuel ih =>
    intro ts s caps r h
    cases ts with
    | nil =>
      simp only [matchToks, Option.some.injEq, Prod.mk.injEq] at h
      rw [← h.1]
      simp [groupFlags]
    | cons t ts2 =>
      cases t with
      | lit c =>
        cases s with
        | nil => simp [matchToks] at h
        | cons d s2 =>
          simp only [matchToks] at h
          split_ifs at h
          have := ih ts2 s2 caps r h
          simpa [groupFlags] using this
      | sp0 =>
        simp only [matchToks] at h
        have := ih ts2 (dropSpaces s) caps r h
        simpa [groupFlags] using this
      | sp1 =>
        cases s with
        | nil => simp [matchToks] at h
        | cons d s2 =>
          simp only [matchToks] at h
          split_ifs at h
          have := ih ts2 (dropSpaces s2) caps r h
          simpa [groupFlags] using this
      | numGrp m =>
        simp only [matchToks] at h
        obtain ⟨p, hp, hfp⟩ := findSome_eq_some _ _ _ h
        cases hm : matchToks fuel ts2 p.2 with
        | none => rw [hm] at hfp; simp at hfp
        | some pr =>
          rw [hm] at hfp
          simp only [Option.map_some', Option.some.injEq, Prod.mk.injEq] at hfp
          rw [← hfp.1]
          have hflags : groupFlags (Tok.numGrp m :: ts2) = m :: groupFlags ts2 := by
            simp [groupFlags]
          rw [hflags]
          exact List.Forall₂.cons (numCandidates_chars m s p hp)
            (ih ts2 p.2 pr.1 pr.2 (by rw [hm]))

/-- A successful search comes from a successful match at some suffix of the
text. -/
theorem searchToks_match (ts : List Tok) :
    ∀ (s : List Char) (caps : List (List Char)), searchToks ts s = some caps →
      ∃ s2 r, matchToksF ts s2 = some (caps, r) := by
  intro s
  induction s with
  | nil =>
    intro caps h
    rw [searchToks] at h
    cases hm : matchToksF ts [] with
    | none => rw [hm] at h; simp at h
    | some r2 =>
      rw [hm] at h
      simp only [Option.some.injEq] at h
      exact ⟨[], r2.2, by rw [hm, ← h]⟩
  | cons c t ih =>
    intro caps h
    rw [searchToks] at h
    cases hm : matchToksF ts (c :: t) with
    | none => rw [hm] at h; exact ih caps h
    | some r2 =>
      rw [hm] at h
      simp only [Option.some.injEq] at h
      exact ⟨c :: t, r2.2, by rw [hm, ← h]⟩

/-- A successful lazy scan comes from a successful match at some suffix. -/
theorem lazyScan_match (ts : List Tok) :
    ∀ (s : List Char) (caps : List (List Char)), lazyScan ts s = some caps →
      ∃ s2 r, matchToksF ts s2 = some (caps, r) := by
  intro s
  induction s with
  | nil =>
    intro caps h
    rw [lazyScan] at h
    cases hm : matchToksF ts [] with
    | none => rw [hm] at h; simp at h
    | some r2 =>
      rw [hm] at h
      simp only [Option.map_some', Option.some.injEq] at h
      exact ⟨[], r2.2, by rw [hm, ← h]⟩
  | cons c t ih =>
    intro caps h
    rw [lazyScan] at h
    cases hm : matchToksF ts (c :: t) with
    | none =>
      rw [hm] at h
      split_ifs at h
      exact ih caps h
    | some r2 =>
      rw [hm] at h
      simp only [Option.some.injEq] at h
      exact ⟨c :: t, r2.2, by rw [hm, ← h]⟩

/-- A successful lazy search produces captures of the continuation pattern. -/
theorem searchLazy_match (hdr rest : List Tok) :
    ∀ (s : List Char) (caps : List (List Char)), searchLazy hdr rest s = some caps →
      ∃ s2 r, matchToksF rest s2 = some (caps, r) := by
  intro s
  induction s with
  | nil =>
    intro caps h
    rw [searchLazy] at h
    cases hb : (matchToksF hdr []).bind fun r => lazyScan rest r.2 with
    | none => rw [hb] at h; simp at h
    | some caps2 =>
      rw [hb] at h
      simp only [Option.some.injEq] at h
      obtain ⟨rh, -, hl⟩ := Option.bind_eq_some.mp hb
      exact lazyScan_match rest rh.2 caps (h ▸ hl)
  | cons c t ih =>
    intro caps h
    rw [searchLazy] at h
    cases hb : (matchToksF hdr (c :: t)).bind fun r => lazyScan rest r.2 with
    | none => rw [hb] at h; exact ih caps h
    | some caps2 =>
      rw [hb] at h
      simp only [Option.some.injEq] at h
      obtain ⟨rh, -, hl⟩ := Option.bind_eq_some.mp hb
      exact lazyScan_match rest rh.2 caps (h ▸ hl)

/-- parseFloat never produces a negative value. -/
theorem parseFloat_nonneg (s : List Char) : 0 ≤ parseFloat s := by
  rw [parseFloat]
  rcases h : splitAtDot s with ⟨i, fo⟩
  rcases fo with _ | f
  · show 0 ≤ mkRat (digitsToNat i) 1
    rw [Rat.mkRat_eq_div]
    positivity
  · show 0 ≤ mkRat (digitsToNat i * 10 ^ f.length + digitsToNat f) (10 ^ f.length)
    rw [Rat.mkRat_eq_div]
    positivity

/-- On captures without a minus sign the parsed amount is non negative. -/
theorem parseNum_nonneg (s : List Char) (hs : ∀ c ∈ s, numCharOK false c) :
    0 ≤ parseNum s := by
  rw [parseNum]
  have hnm : '-' ∉ s.filter fun c => c != ',' := by
    intro hc
    rcases hs '-' (List.mem_of_mem_filter hc) with h | h | h | h
    · simp [isDigitChar] at h
    · exact absurd h (by decide)
    · exact absurd h (by decide)
    · exact absurd h.1 (by decide)
  rw [if_neg hnm]
  exact parseFloat_nonneg _

/-- Any value read from the third group of a totals pattern is non negative. -/
theorem extractThird_nonneg (pat : List Tok) (text : List Char) (q : ℚ)
    (hg : groupFlags pat = [false, true, false])
    (h : extractThird pat text = some q) : 0 ≤ q := by
  rw [extractThird] at h
  cases hs : searchToks pat text with
  | none => rw [hs] at h; simp at h
  | some caps =>
    rw [hs] at h
    simp only [Option.some_bind] at h
    obtain ⟨s2, r, hm⟩ := searchToks_match pat text caps hs
    have hf := matchToks_groups _ _ _ _ _ hm
    rw [hg] at hf
    rcases hf with _ | ⟨h0, _ | ⟨h1, _ | ⟨h2, _⟩⟩⟩
    simp only [List.get?_cons_succ, List.get?_cons_zero, Option.map_some',
      Option.some.injEq] at h
    rw [← h]
    exact parseNum_nonneg _ h2
/-- C10: every field extracted by extract_turnover_summary_data is either None
or a non negative amount, for every input text: the totals patterns only allow
a trailing minus inside the captured discount group, never inside the captured
net group that is read, so the negative branch of the parser can never fire. -/
theorem extract_turnover_summary_nonneg (text : List Char) (q : ℚ) :
    ((extract_turnover_summary_data text).turnover = some q → 0 ≤ q) ∧
    ((extract_turnover_summary_data text).sales_cash = some q → 0 ≤ q) ∧
    ((extract_turnover_summary_data text).sales_account = some q → 0 ≤ q) ∧
    ((extract_turnover_summary_data text).sales_cod = some q → 0 ≤ q) := by
  have hg1 : groupFlags turnoverPat1 = [false, true, false] := rfl
  have hgc : groupFlags cashPat = [false, true, false] := rfl
  have hga : groupFlags accountPat = [false, true, false] := rfl
  have hgd : groupFlags codPat = [false, true, false] := rfl
  refine ⟨?_, ?_, ?_, ?_⟩
  · intro h
    simp only [extract_turnover_summary_data] at h
    cases h1 : extractThird turnoverPat1 text with
    | some v =>
      rw [h1] at h
      simp only [Option.some.injEq] at h
      exact h ▸ extractThird_nonneg turnoverPat1 text v hg1 h1
    | none =>
      rw [h1] at h
      cases hs : searchLazy turnoverPat2Hdr turnoverPat2Rest text with
      | none => rw [hs] at h; simp at h
      | some caps =>
        rw [hs] at h
        simp only [Option.some_bind] at h
        obtain ⟨s2, r, hm⟩ := searchLazy_match turnoverPat2Hdr turnoverPat2Rest text caps hs
        have hf := matchToks_groups _ _ _ _ _ hm
        have hg2 : groupFlags turnoverPat2Rest = [false] := rfl
        rw [hg2] at hf
        rcases hf with _ | ⟨h0, _⟩
        simp only [List.get?_cons_zero, Option.map_some', Option.some.injEq] at h
        rw [← h]
        exact parseNum_nonneg _ h0
  · exact fun h => extractThird_nonneg cashPat text q hgc h
  · exact fun h => extractThird_nonneg accountPat text q hga h
  · exact fun h => extractThird_nonneg codPat text q hgd h

/-- The standard three column totals line of the worked example. -/
def totalsLine850 : List Char := "** TOTAL TURNOVER 1,000.00 150.00- 850.00".toList

/-- C10 witness: on a concrete totals line the extracted turnover is 850 and the
theorem yields its non negativity. -/
theorem extract_turnover_summary_nonneg_witness :
    (extract_turnover_summary_data totalsLine850).turnover = some 850 ∧
      (0 : ℚ) ≤ 850 :=
  ⟨rfl, (extract_turnover_summary_nonneg totalsLine850 850).1 rfl⟩

/-- C6 counterexample: a document text that contains the totals line
"** TOTAL TURNOVER 1,000.00 150.00- 850.00" but also an earlier totals line;
re.search takes the leftmost match, so the extracted turnover is the earlier
net column 1.00, not 850.00. -/
theorem turnover_third_group_cex :
    (extract_turnover_summary_data
        ("** TOTAL TURNOVER 2.00 0.00 1.00\n".toList ++ (totalsLine850 ++ ['\n']))).turnover
      = some 1 ∧ some (1 : ℚ) ≠ some (850 : ℚ) := by
  refine ⟨rfl, ?_⟩
  intro h
  rw [Option.some.injEq] at h
  norm_num at h

/-- Matching a literal token against a different character fails. -/
theorem matchToks_lit_fail (fuel : ℕ) (a c : Char) (ts : List Tok) (s : List Char)
    (hc : ciEq a c = false) :
    matchToks fuel (Tok.lit a :: ts) (c :: s) = none := by
  cases fuel with
  | zero => rfl
  | succ fuel => simp [matchToks, hc]

/-- The totals pattern starts with a star literal, so it cannot match at a
position whose first character is not a star. -/
theorem matchToksF_turnoverPat1_fail (c : Char) (s : List Char)
    (hc : ciEq '*' c = false) : matchToksF turnoverPat1 (c :: s) = none :=
  matchToks_lit_fail _ '*' c _ s hc

/-- One step of the search recursion. -/
theorem searchToks_cons (ts : List Tok) (c : Char) (t : List Char) :
    searchToks ts (c :: t) =
      match matchToksF ts (c :: t) with
      | some r => some r.1
      | none => searchToks ts t := rfl

/-- The captures of the totals pattern on the worked example line. -/
def caps850 : List (List Char) :=
  ["1,000.00".toList, "150.00-".toList, "850.00".toList]

/-- On any text consisting of a star free prefix, the worked example totals
line and anything after it on later lines, the search finds exactly that line
and captures its three columns. -/
theorem searchToks_totalsLine850 (pre post : List Char)
    (hpre : ∀ c ∈ pre, ciEq '*' c = false) :
    searchToks turnoverPat1 (pre ++ (totalsLine850 ++ '\n' :: post)) =
      some caps850 := by
  induction pre with
  | nil =>
    rw [List.nil_append]
    rfl
  | cons c pre2 ih =>
    rw [List.cons_append, searchToks_cons,
      matchToksF_turnoverPat1_fail c _ (hpre c (by simp))]
    exact ih fun d hd => hpre d (by simp [hd])

/-- C6 (amended): for any document text in which the totals line
"** TOTAL TURNOVER 1,000.00 150.00- 850.00" is the leftmost possible match of
the totals pattern (no star occurs before it, up to case folding),
extract_turnover_summary_data returns turnover = 850.00: the third numeric
group is selected and the minus marker on the discount group is not applied. -/
theorem turnover_third_group (pre post : List Char)
    (hpre : ∀ c ∈ pre, ciEq '*' c = false) :
    (extract_turnover_summary_data
        (pre ++ (totalsLine850 ++ '\n' :: post))).turnover = some 850 := by
  have hs := searchToks_totalsLine850 pre post hpre
  have h3 : extractThird turnoverPat1 (pre ++ (totalsLine850 ++ '\n' :: post)) =
      some (parseNum "850.00".toList) := by
    rw [extractThird, hs]
    rfl
  simp only [extract_turnover_summary_data]
  rw [h3]
  rfl

/-- C6 witness: a concrete report text with a star free header line before the
totals line yields turnover 850.00. -/
theorem turnover_third_group_witness :
    (extract_turnover_summary_data
        ("REITZ PHARMACY\n".toList ++ (totalsLine850 ++ '\n' :: "END".toList))).turnover =
      some 850 :=
  turnover_third_group "REITZ PHARMACY\n".toList "END".toList (by decide)
